import Mathlib

/-!
Shallow embedding of `src/scanner.py` (rednafi/tcp-port-scanner), an
asyncio-based TCP port scanner, together with proofs about the embedded
definitions.

The embedding follows the Python source function by function:
* `parse_ports` (scanner.py lines 80-116) — port-spec string to port tuple;
* `producer` (lines 119-135) — host expansion via `ipaddress.ip_network`
  and task construction via `itertools.product`;
* `consumer` (lines 138-151) — per-task connection attempt with its
  `try/except asyncio.TimeoutError/else/finally` structure;
* `orchestrator` (lines 154-205) — worker-pool launch, result drain, sort.

Python machine-level collaborators (`int()`, `str.split`, `re.match`,
`ipaddress`) are modelled explicitly as executable Lean functions mirroring
their documented behaviour on the inputs the scanner feeds them.
-/

namespace Scanner

/-- Error taxonomy of the scanner.
`invalidFormat` embeds `InvalidFormatError` (scanner.py line 26),
`invalidValue` embeds `InvalidValueError` (line 38), and
`builtinValueError` embeds an *uncaught* Python builtin `ValueError`
raised by `int()` on a malformed literal (possible at line 110, where the
call is not wrapped in try/except); it carries the offending literal
(as its character list). -/
inductive ScanError where
  | invalidFormat (msg : String)
  | invalidValue (msg : String)
  | builtinValueError (tok : List Char)
  deriving DecidableEq, Repr

/-- Models Python `str.split(sep)` for a single-character separator, on
the character list of the string: splitting on every occurrence of `sep`,
keeping empty pieces (so `"80,,443,".split(",") = ["80","","443",""]`). -/
def pySplit (sep : Char) : List Char → List (List Char)
  | [] => [[]]
  | c :: rest =>
    if c = sep then [] :: pySplit sep rest
    else
      match pySplit sep rest with
      | [] => [[c]]
      | t :: ts => (c :: t) :: ts

/-- Models Python `str.strip()` (as called inside `int()`): drop leading
and trailing whitespace characters. -/
def pyStrip (l : List Char) : List Char :=
  ((l.dropWhile (fun c => c.isWhitespace)).reverse.dropWhile
      (fun c => c.isWhitespace)).reverse

/-- `MAX_CONSUMERS` (scanner.py line 20). -/
def MAX_CONSUMERS : Nat := 1000

/-- Digit-string to number, big-endian fold; helper for `pythonInt?`. -/
def digitsVal (l : List Char) : Nat :=
  l.foldl (fun acc c => acc * 10 + (c.toNat - 48)) 0

/-- Parse a nonempty all-digit character list, else `none`. -/
def parseDigits? (l : List Char) : Option Nat :=
  if l ≠ [] ∧ l.all (fun c => c.isDigit) then some (digitsVal l) else none

/-- Models Python's builtin `int(s)` on a string (given as its character
list): surrounding whitespace is stripped, an optional single `+`/`-` sign
is allowed, then one or more decimal digits; anything else raises
`ValueError`, modelled as `none`.  (Underscore digit separators, accepted
by CPython, are not modelled; no scanner input the claims touch contains
one.) -/
def pythonInt? (s : List Char) : Option Int :=
  match pyStrip s with
  | '-' :: rest => (parseDigits? rest).map (fun n => -(n : Int))
  | '+' :: rest => (parseDigits? rest).map (fun n => (n : Int))
  | l => (parseDigits? l).map (fun n => (n : Int))

/-- Models `re.match(r"[\d\-,\s]+", port_str)` at scanner.py line 87:
`re.match` anchors only at the *start* of the string, so the test succeeds
exactly when the string begins with at least one character of the class
`[\d\-,\s]` — the rest of the string is not constrained. -/
def matchesPortRegex (s : String) : Bool :=
  match s.data with
  | [] => false
  | c :: _ => c.isDigit || c = '-' || c = ',' || c.isWhitespace

/-- The bound test `-1 < p < 65536` (scanner.py lines 105 and 111). -/
def portBoundsOk (p : Int) : Bool := -1 < p && p < 65536

/-- The fixed message of every `InvalidValueError` the parser raises
(scanner.py lines 106 and 112). -/
def invalidValueMsg : String := "ports must be between 0 and 65535"

/-- Models Python `range(start, stop)` over integers as a list. -/
def pyRange (start stop : Int) : List Int :=
  (List.range (stop - start).toNat).map (fun (i : Nat) => start + (i : Int))

/-- The loop `for p in range(start, end)` of scanner.py lines 104-107:
each port is bound-checked and appended; the first out-of-bounds port
aborts with `InvalidValueError`. -/
def checkPorts : List Int → Except ScanError (List Int)
  | [] => .ok []
  | p :: rest =>
    if portBoundsOk p then (checkPorts rest).map (fun l => p :: l)
    else .error (.invalidValue invalidValueMsg)

/-- Range-token resolution for already-parsed numeric components `a`
(= `port[0]`) and `b` (= `port[-1]`): `start = min(a, b)`,
`end = max(a, b)`, then the half-open range `range(start, end)` with
per-port bound checks (scanner.py lines 100-107). -/
def resolveRangeToken (a b : Int) : Except ScanError (List Int) :=
  checkPorts (pyRange (min a b) (max a b))

/-- Processing of one comma-separated token (scanner.py lines 93-114).
A token containing `-` is split on `-` and every component is fed to
`int()`; any failure there is caught and re-raised as
`InvalidFormatError` (lines 95-98); otherwise only the first and last
components are used as range bounds.  A token without `-` is fed to
`int()` directly — a failure there is an *uncaught* builtin `ValueError`
(line 110) — then bound-checked and appended. -/
def processToken (tok : List Char) : Except ScanError (List Int) :=
  if tok.contains '-' then
    match (pySplit '-' tok).mapM pythonInt? with
    | none => .error (.invalidFormat "port string formatting is not correct")
    | some parts => resolveRangeToken (parts.headD 0) (parts.getLastD 0)
  else
    match pythonInt? tok with
    | none => .error (.builtinValueError tok)
    | some p =>
      if portBoundsOk p then .ok [p]
      else .error (.invalidValue invalidValueMsg)

/-- The left-to-right loop over tokens (scanner.py line 93), accumulating
the `ports` list; the first failing token aborts. -/
def processTokens : List (List Char) → Except ScanError (List Int)
  | [] => .ok []
  | tok :: rest => do
    let ps ← processToken tok
    let more ← processTokens rest
    pure (ps ++ more)

/-- `[x for x in port_str.split(",") if x]` (scanner.py line 91): split on
commas and drop empty tokens. -/
def portTokens (port_str : String) : List (List Char) :=
  (pySplit ',' port_str.data).filter (fun x => x ≠ [])

/-- `parse_ports` (scanner.py lines 80-116).  The final
`tuple(set(ports))` collapses duplicates in an unspecified iteration
order; it is modelled by `List.dedup` (set-level claims compare
`toFinset` images, which are insensitive to that order). -/
def parse_ports (port_str : String) : Except ScanError (List Int) :=
  if ¬ matchesPortRegex port_str then
    .error (.invalidFormat "invalid port string format")
  else do
    let ports ← processTokens (portTokens port_str)
    pure ports.dedup

/-- Decidable equality on `Except` results, for evaluating concrete runs. -/
instance {ε α : Type} [DecidableEq ε] [DecidableEq α] :
    DecidableEq (Except ε α) := fun a b =>
  match a, b with
  | .ok x, .ok y =>
    if h : x = y then .isTrue (by rw [h]) else .isFalse (by simp [h])
  | .error e, .error f =>
    if h : e = f then .isTrue (by rw [h]) else .isFalse (by simp [h])
  | .ok _, .error _ => .isFalse (by simp)
  | .error _, .ok _ => .isFalse (by simp)

/-- If every port in the list is in bounds, the check-and-append loop
returns the list unchanged. -/
theorem checkPorts_ok_of_all (ps : List Int)
    (h : ∀ p ∈ ps, portBoundsOk p = true) : checkPorts ps = .ok ps := by
  induction ps with
  | nil => rfl
  | cons p rest ih =>
    have hp : portBoundsOk p = true := h p (List.mem_cons_self ..)
    have hr := ih (fun q hq => h q (List.mem_cons_of_mem _ hq))
    simp [checkPorts, hp, hr, Except.map]

/-- If some port in the list is out of bounds, the check-and-append loop
fails with `InvalidValueError` carrying the fixed message. -/
theorem checkPorts_error_of_exists (ps : List Int)
    (h : ∃ p ∈ ps, portBoundsOk p = false) :
    checkPorts ps = .error (.invalidValue invalidValueMsg) := by
  induction ps with
  | nil => simp at h
  | cons p rest ih =>
    rcases h with ⟨q, hq, hqbad⟩
    rcases List.mem_cons.mp hq with rfl | hqrest
    · simp [checkPorts, hqbad]
    · cases hp : portBoundsOk p with
      | true =>
        have hr := ih ⟨q, hqrest, hqbad⟩
        simp [checkPorts, hp, hr, Except.map]
      | false => simp [checkPorts, hp]

/-- Every element of `pyRange s t` lies in the half-open interval `[s, t)`. -/
theorem mem_pyRange {s t p : Int} (h : p ∈ pyRange s t) : s ≤ p ∧ p < t := by
  unfold pyRange at h
  rcases List.mem_map.mp h with ⟨i, hi, rfl⟩
  rw [List.mem_range] at hi
  omega

/-- A successful `parse_ports` run factors through `processTokens` on the
filtered token list, followed by `dedup`. -/
theorem parse_ports_ok_iff (s : String) (l : List Int) :
    parse_ports s = .ok l ↔
      matchesPortRegex s = true ∧
      ∃ ports, processTokens (portTokens s) = .ok ports ∧ l = ports.dedup := by
  unfold parse_ports
  by_cases hre : matchesPortRegex s
  · cases h : processTokens (portTokens s) with
    | ok ports => simp [hre, h, Bind.bind, Except.bind, Pure.pure, Except.pure, eq_comm]
    | error e => simp [hre, h, Bind.bind, Except.bind]
  · simp [hre]

/-- Any list a successful `parse_ports` run returns has no duplicates. -/
theorem parse_ports_ok_nodup {s : String} {l : List Int}
    (h : parse_ports s = .ok l) : l.Nodup := by
  rcases (parse_ports_ok_iff s l).mp h with ⟨-, ports, -, rfl⟩
  exact List.nodup_dedup ports

/-- C4: a port-spec token `a-b` resolves to the half-open range of ports
from `min(a,b)` up to but excluding `max(a,b)`; in particular
`parse_ports "80,443,8080-8082"` returns exactly the set
`{80, 443, 8080, 8081}`, with no duplicates. -/
theorem C4_half_open_range :
    (∀ a b : Int, 0 ≤ min a b → max a b ≤ 65536 →
        resolveRangeToken a b = .ok (pyRange (min a b) (max a b))) ∧
    (parse_ports "80,443,8080-8082").toOption.map List.toFinset
        = some ({80, 443, 8080, 8081} : Finset Int) ∧
    (∀ l : List Int, parse_ports "80,443,8080-8082" = .ok l → l.Nodup) := by
  refine ⟨?_, by decide, fun l h => parse_ports_ok_nodup h⟩
  intro a b h0 h1
  unfold resolveRangeToken
  apply checkPorts_ok_of_all
  intro p hp
  have hb := mem_pyRange hp
  simp only [portBoundsOk, Bool.and_eq_true, decide_eq_true_eq]
  omega

/-- C4 witness: the range token bounds `8080`, `8082` resolve to the
half-open range `[8080, 8081]`. -/
theorem C4_half_open_range_witness :
    resolveRangeToken 8080 8082 = .ok [8080, 8081] := by
  rw [C4_half_open_range.1 8080 8082 (by decide) (by decide)]
  decide

/-- C5 counterexample: `"80abc"` contains characters outside the class
`[0-9\-,\s]`, yet `parse_ports` does not fail with `InvalidFormatError` —
it raises the uncaught Python builtin `ValueError` from `int()` at
scanner.py line 110, because `re.match` at line 87 anchors only at the
start of the string. -/
theorem C5_counterexample :
    ("80abc".data.all
        (fun c => c.isDigit || c = '-' || c = ',' || c.isWhitespace)) = false ∧
    parse_ports "80abc" = .error (.builtinValueError "80abc".data) := by
  constructor
  · decide
  · decide

/-- C5 (amended): the regex gate at scanner.py line 87 uses `re.match`,
which anchors only at the start: a spec that is empty or whose first
character is outside `[0-9\-,\s]` fails with `InvalidFormatError`, but a
spec that begins with an allowed character and contains a disallowed one
later passes the gate and instead fails with the uncaught Python builtin
`ValueError` raised by `int()` (or with `InvalidFormatError` from the
range branch). -/
theorem C5_regex_start_anchored :
    (∀ s : String, matchesPortRegex s = false →
        parse_ports s = .error (.invalidFormat "invalid port string format")) ∧
    parse_ports "abc" = .error (.invalidFormat "invalid port string format") ∧
    parse_ports "80abc" = .error (.builtinValueError "80abc".data) := by
  refine ⟨?_, by decide, by decide⟩
  intro s h
  unfold parse_ports
  simp [h]

/-- C5 witness: the spec `"abc"` fails the start-anchored regex and is
rejected with `InvalidFormatError`. -/
theorem C5_regex_start_anchored_witness :
    parse_ports "abc" = .error (.invalidFormat "invalid port string format") :=
  C5_regex_start_anchored.1 "abc" (by decide)

/-- C6 counterexample: the `InvalidValueError` message is the fixed string
`"ports must be between 0 and 65535"` for every offending value — two
different out-of-range ports (70000 and 80000) produce the identical
message, so the message does not name the offending value. -/
theorem C6_counterexample :
    parse_ports "70000" = .error (.invalidValue "ports must be between 0 and 65535") ∧
    parse_ports "80000" = .error (.invalidValue "ports must be between 0 and 65535") := by
  constructor
  · decide
  · decide

/-- C6 (amended): a resolved port outside `0 ≤ p ≤ 65535` makes the parser
fail with `InvalidValueError` — an error type distinct from
`InvalidFormatError` — carrying the *fixed* message
`"ports must be between 0 and 65535"`, which does not name the offending
value; in particular `parse_ports "70000"` fails with
`InvalidValueError`. -/
theorem C6_out_of_range_value_error :
    (∀ tok : List Char, tok.contains '-' = false →
      ∀ p : Int, pythonInt? tok = some p → portBoundsOk p = false →
        processToken tok = .error (.invalidValue invalidValueMsg)) ∧
    (∀ a b : Int, (∃ p ∈ pyRange (min a b) (max a b), portBoundsOk p = false) →
        resolveRangeToken a b = .error (.invalidValue invalidValueMsg)) ∧
    parse_ports "70000" = .error (.invalidValue invalidValueMsg) ∧
    (∀ m m' : String, ScanError.invalidValue m ≠ ScanError.invalidFormat m') := by
  refine ⟨?_, ?_, by decide, by simp⟩
  · intro tok hc p hp hb
    have hcne : ¬ (tok.contains '-' = true) := by simp only [hc]; decide
    have hbne : ¬ (portBoundsOk p = true) := by simp only [hb]; decide
    simp only [processToken, if_neg hcne, hp, if_neg hbne]
  · intro a b h
    unfold resolveRangeToken
    exact checkPorts_error_of_exists _ h

/-- C6 witness: the single token `"70000"` and the range bounds
`70000`, `70001` both fail with `InvalidValueError`. -/
theorem C6_out_of_range_value_error_witness :
    processToken "70000".data = .error (.invalidValue invalidValueMsg) ∧
    resolveRangeToken 70000 70001 = .error (.invalidValue invalidValueMsg) :=
  ⟨C6_out_of_range_value_error.1 "70000".data (by decide) 70000 (by decide) (by decide),
   C6_out_of_range_value_error.2.1 70000 70001 (by decide)⟩

/-- C9: empty tokens arising from leading, trailing or consecutive commas
are filtered out before processing — every token the parser actually
processes is nonempty — and `parse_ports "80,,443,"` returns the same
result as `parse_ports "80,443"`. -/
theorem C9_empty_tokens_skipped :
    (∀ s : String, ∀ t ∈ portTokens s, t ≠ []) ∧
    parse_ports "80,,443," = parse_ports "80,443" := by
  refine ⟨?_, by decide⟩
  intro s t ht
  have h := List.mem_filter.mp ht
  simpa using h.2

/-- C9 witness: the token `"80"` of the spec `"80,,443,"` is nonempty. -/
theorem C9_empty_tokens_skipped_witness : ("80".data : List Char) ≠ [] :=
  C9_empty_tokens_skipped.1 "80,,443," "80".data (by decide)

/-- C10: a token containing two or more hyphens is not rejected as
malformed: once every hyphen-separated component parses as an integer,
only the first (`port[0]`) and last (`port[-1]`) components are used as
the range bounds and all middle components are ignored — `"1-99999999-5"`
parses like `"1-5"` even though the middle component is far outside the
port range, and `parse_ports "1-100-5"` returns `{1, 2, 3, 4}`. -/
theorem C10_multi_hyphen_token :
    (∀ tok : List Char, tok.contains '-' = true →
      ∀ parts : List Int, (pySplit '-' tok).mapM pythonInt? = some parts →
        processToken tok = resolveRangeToken (parts.headD 0) (parts.getLastD 0)) ∧
    parse_ports "1-99999999-5" = parse_ports "1-5" ∧
    (parse_ports "1-100-5").toOption.map List.toFinset
        = some ({1, 2, 3, 4} : Finset Int) := by
  refine ⟨?_, by decide, by decide⟩
  intro tok hc parts hp
  simp only [processToken, if_pos hc, hp]

/-- C10 witness: the three-component token `"1-100-5"` resolves through
its first and last components only. -/
theorem C10_multi_hyphen_token_witness :
    processToken "1-100-5".data = resolveRangeToken 1 5 := by
  rw [C10_multi_hyphen_token.1 "1-100-5".data (by decide) [1, 100, 5] (by decide)]
  decide

/-- Outcome of the awaited `asyncio.open_connection(ip, port)` bounded by
`asyncio.wait_for(conn, timeout)` in the consumer (scanner.py lines
143-145): the attempt succeeds, times out (`asyncio.TimeoutError`), or
fails with some other exception, named by `failure` (e.g.
`ConnectionRefusedError`, `OSError`). -/
inductive ConnOutcome where
  | success
  | timeout
  | failure (exc : String)
  deriving DecidableEq, Repr

/-- Observable effect of one consumer loop iteration on one task
(scanner.py lines 142-151): `emitted` is what `result_queue.put_nowait`
receives (if anything), `raised` is the exception propagating out of the
iteration (if any), and `taskDone` records whether
`task_queue.task_done()` ran. -/
structure ConsumerStep where
  emitted : Option (String × Int)
  raised : Option String
  taskDone : Bool
  deriving DecidableEq, Repr

/-- One iteration of `consumer` (scanner.py lines 141-151): the
`try/except asyncio.TimeoutError/else/finally` block.  Only
`asyncio.TimeoutError` is caught (`pass`); on success the `else` branch
emits `(ip, port)`; any other exception is not caught and propagates; the
`finally` clause marks the task done in every case. -/
def consumerStep (ip : String) (port : Int) (outcome : ConnOutcome) :
    ConsumerStep :=
  match outcome with
  | .success => ⟨some (ip, port), none, true⟩
  | .timeout => ⟨none, none, true⟩
  | .failure exc => ⟨none, some exc, true⟩

/-- C1 counterexample: a connection attempt failing with
`ConnectionRefusedError` — an expected connection failure other than a
timeout — is *not* silently treated as closed: the exception propagates
out of the worker (only `asyncio.TimeoutError` is caught), even though no
`ScanResult` is emitted and the task is still marked done. -/
theorem C1_counterexample :
    (consumerStep "10.0.0.1" 80 (.failure "ConnectionRefusedError")).raised
        = some "ConnectionRefusedError" ∧
    (consumerStep "10.0.0.1" 80 (.failure "ConnectionRefusedError")).emitted = none ∧
    (consumerStep "10.0.0.1" 80 (.failure "ConnectionRefusedError")).taskDone = true := by
  decide

/-- C1 (amended): only a timeout is treated as "port closed" and silently
discarded; every non-timeout connection failure (e.g. connection refused,
network unreachable) propagates out of the worker uncaught; in every
case no `ScanResult` is emitted unless the connection succeeded, and the
task is marked done regardless of outcome. -/
theorem C1_only_timeout_silenced :
    (∀ ip port, consumerStep ip port .timeout = ⟨none, none, true⟩) ∧
    (∀ ip port exc, consumerStep ip port (.failure exc) = ⟨none, some exc, true⟩) ∧
    (∀ ip port outcome, (consumerStep ip port outcome).taskDone = true) ∧
    (∀ ip port outcome,
        (consumerStep ip port outcome).emitted = none ∨ outcome = .success) := by
  refine ⟨fun ip port => rfl, fun ip port exc => rfl, ?_, ?_⟩
  · intro ip port outcome
    cases outcome <;> rfl
  · intro ip port outcome
    cases outcome with
    | success => exact Or.inr rfl
    | timeout => exact Or.inl rfl
    | failure exc => exact Or.inl rfl

/-- The consumer-launch loop `for _ in range(MAX_CONSUMERS)` at
scanner.py lines 182-183: the number of consumer tasks created is
`MAX_CONSUMERS`, with no dependence on the task count. -/
def consumersLaunched (taskCount : Nat) : Nat := MAX_CONSUMERS

/-- C3 counterexample: for a scan with a single task, the pool launches
`1000` workers, not `min(1000, 1) = 1`. -/
theorem C3_counterexample :
    consumersLaunched 1 = 1000 ∧ min MAX_CONSUMERS 1 = 1 ∧
    consumersLaunched 1 ≠ min MAX_CONSUMERS 1 := by
  decide

/-- C3 (amended): the pool always launches exactly `MAX_CONSUMERS = 1000`
workers, regardless of the task count. -/
theorem C3_fixed_pool_size :
    (∀ taskCount : Nat, consumersLaunched taskCount = 1000) ∧
    MAX_CONSUMERS = 1000 :=
  ⟨fun _ => rfl, rfl⟩

/-- `split_addr` (scanner.py lines 42-54): split the address on `.`,
convert each octet with `int()`, and append the port, producing the sort
key.  `int()` is modelled by `pythonInt?` with default `0`; the scanner
only sorts addresses produced by `ipaddress`, whose octets are valid
decimal literals, so the default is never consulted on reachable
inputs. -/
def split_addr (ip_port : String × Int) : List Int :=
  ((pySplit '.' ip_port.1.data).map (fun s => (pythonInt? s).getD 0)) ++ [ip_port.2]

/-- Python tuple comparison `<=`, lexicographic over integer components:
this is the order `list.sort(key=split_addr)` sorts by. -/
def tupleLe : List Int → List Int → Bool
  | [], _ => true
  | _ :: _, [] => false
  | x :: xs, y :: ys => if x < y then true else if y < x then false else tupleLe xs ys

/-- Unfolding of `tupleLe` on two nonempty tuples. -/
theorem tupleLe_cons_iff {x y : Int} {xs ys : List Int} :
    tupleLe (x :: xs) (y :: ys) = true ↔ x < y ∨ (x = y ∧ tupleLe xs ys = true) := by
  simp only [tupleLe]
  split_ifs with h1 h2
  · simp [h1]
  · simp only [Bool.false_eq_true, false_iff]
    rintro (h | ⟨h, -⟩) <;> omega
  · have hxy : x = y := by omega
    simp [hxy]

/-- `tupleLe` is transitive. -/
theorem tupleLe_trans :
    ∀ a b c : List Int, tupleLe a b = true → tupleLe b c = true →
      tupleLe a c = true := by
  intro a
  induction a with
  | nil => intro b c h1 h2; rfl
  | cons x xs ih =>
    intro b c h1 h2
    cases b with
    | nil => simp [tupleLe] at h1
    | cons y ys =>
      cases c with
      | nil => simp [tupleLe] at h2
      | cons z zs =>
        rw [tupleLe_cons_iff] at h1 h2 ⊢
        rcases h1 with h1 | ⟨rfl, h1⟩ <;> rcases h2 with h2 | ⟨rfl, h2⟩
        · exact Or.inl (by omega)
        · exact Or.inl (by omega)
        · exact Or.inl (by omega)
        · exact Or.inr ⟨rfl, ih ys zs h1 h2⟩

/-- `tupleLe` coincides with `tupleLe` of the tails when heads agree. -/
theorem tupleLe_cons_self {x : Int} {xs ys : List Int} :
    tupleLe (x :: xs) (x :: ys) = tupleLe xs ys := by
  simp [tupleLe]

/-- `tupleLe` is total. -/
theorem tupleLe_total :
    ∀ a b : List Int, (tupleLe a b || tupleLe b a) = true := by
  intro a
  induction a with
  | nil => intro b; rfl
  | cons x xs ih =>
    intro b
    cases b with
    | nil => rfl
    | cons y ys =>
      rcases lt_trichotomy x y with h | h | h
      · have : tupleLe (x :: xs) (y :: ys) = true := tupleLe_cons_iff.mpr (Or.inl h)
        simp [this]
      · subst h
        rw [tupleLe_cons_self, tupleLe_cons_self]
        exact ih ys
      · have : tupleLe (y :: ys) (x :: xs) = true := tupleLe_cons_iff.mpr (Or.inl h)
        simp [this]

/-- The order `open_ports.sort(key=split_addr)` (scanner.py line 204)
sorts by: compare the `split_addr` keys as Python compares tuples. -/
def resultLe (a b : String × Int) : Prop :=
  tupleLe (split_addr a) (split_addr b) = true

instance : DecidableRel resultLe := fun a b =>
  inferInstanceAs (Decidable (_ = true))

/-- `open_ports.sort(key=split_addr)` (scanner.py line 204): a stable
ascending sort by the `split_addr` key (Python's Timsort and insertion
sort agree on every input, both being stable sorts for the same total
preorder). -/
def sortOpenPorts (l : List (String × Int)) : List (String × Int) :=
  l.insertionSort resultLe

/-- C2: the final output of a normally completing scan is the drained
result list sorted ascending by the address's four numeric octets and
then the port (the `split_addr` key); on the spec's example the unordered
results `[("10.0.0.2", 80), ("10.0.0.1", 443), ("10.0.0.1", 80)]` come
out as `[("10.0.0.1", 80), ("10.0.0.1", 443), ("10.0.0.2", 80)]`. -/
theorem C2_sorted_output :
    (∀ results : List (String × Int),
        (sortOpenPorts results).Sorted resultLe ∧
        (sortOpenPorts results).Perm results) ∧
    sortOpenPorts [("10.0.0.2", 80), ("10.0.0.1", 443), ("10.0.0.1", 80)]
      = [("10.0.0.1", 80), ("10.0.0.1", 443), ("10.0.0.2", 80)] := by
  constructor
  · intro results
    haveI : IsTotal (String × Int) resultLe :=
      ⟨fun a b => by
        have h := tupleLe_total (split_addr a) (split_addr b)
        rcases Bool.or_eq_true_iff.mp h with h | h
        · exact Or.inl h
        · exact Or.inr h⟩
    haveI : IsTrans (String × Int) resultLe :=
      ⟨fun a b c h1 h2 => tupleLe_trans _ _ _ h1 h2⟩
    exact ⟨List.sorted_insertionSort resultLe results,
      List.perm_insertionSort resultLe results⟩
  · decide

/-- A decimal digit character; helper for printing numbers the way
Python's `str(int)` does. -/
def digitChar (d : Nat) : Char := Char.ofNat (48 + d)

/-- Fuel-driven decimal printer for positive numbers, most significant
digit first; `natToChars` below supplies enough fuel. -/
def natToCharsAux : Nat → Nat → List Char
  | _, 0 => []
  | 0, _ => []
  | fuel + 1, n => natToCharsAux fuel (n / 10) ++ [digitChar (n % 10)]

/-- Models Python `str(n)` for a natural `n`: its decimal digits, with
`"0"` for zero. -/
def natToChars (n : Nat) : List Char :=
  if n = 0 then ['0'] else natToCharsAux n n

/-- Models `str(ipaddress.IPv4Address(n))`: dotted-quad decimal notation
of the 32-bit address `n`. -/
def natToDotted (n : Nat) : String :=
  ⟨natToChars (n / 2 ^ 24 % 256) ++ '.' ::
      (natToChars (n / 2 ^ 16 % 256) ++ '.' ::
        (natToChars (n / 2 ^ 8 % 256) ++ '.' :: natToChars (n % 256)))⟩

/-- Models one dotted-quad octet as `ipaddress` accepts it: one to three
ASCII digits, no leading zero (unless the octet is exactly `"0"`), value
at most 255. -/
def parseOctet? (s : List Char) : Option Nat :=
  if s ≠ [] ∧ s.length ≤ 3 ∧ s.all (fun c => c.isDigit) ∧
      (s.length = 1 ∨ s.headD '0' ≠ '0') then
    if digitsVal s < 256 then some (digitsVal s) else none
  else none

/-- Models `ipaddress.IPv4Address(str)` parsing: exactly four octets
separated by dots, packed big-endian into a 32-bit value. -/
def parseIPv4? (s : List Char) : Option Nat :=
  match pySplit '.' s with
  | [a, b, c, d] =>
    match parseOctet? a, parseOctet? b, parseOctet? c, parseOctet? d with
    | some x, some y, some z, some w =>
      some (((x * 256 + y) * 256 + z) * 256 + w)
    | _, _, _, _ => none
  | _ => none

/-- Models the prefix-length part of a CIDR string: decimal digits with
value at most 32. -/
def parsePfxLen? (s : List Char) : Option Nat :=
  if s ≠ [] ∧ s.all (fun c => c.isDigit) then
    if digitsVal s ≤ 32 then some (digitsVal s) else none
  else none

/-- Models `ipaddress.ip_network(s)` in its default strict mode:
a bare address becomes a `/32` network, an `addr/prefix` pair must have
all host bits zero; the result is `(network address, prefix length)`,
with `none` for every input the library rejects with `ValueError`. -/
def ip_network? (s : List Char) : Option (Nat × Nat) :=
  match pySplit '/' s with
  | [addr] => (parseIPv4? addr).map (fun n => (n, 32))
  | [addr, p] =>
    match parseIPv4? addr, parsePfxLen? p with
    | some n, some pl =>
      if n % 2 ^ (32 - pl) = 0 then some (n, pl) else none
    | _, _ => none
  | _ => none

/-- Models `IPv4Network.hosts()`: the usable host addresses of the block —
the single address for a `/32`, both addresses for a `/31` (RFC 3021),
and everything strictly between the network and broadcast addresses
otherwise. -/
def hostsOfNetwork (net pfx : Nat) : List Nat :=
  if pfx = 32 then [net]
  else if pfx = 31 then [net, net + 1]
  else (List.range (2 ^ (32 - pfx) - 2)).map (fun i => net + 1 + i)

/-- Models `host.replace("/32", "")` (scanner.py line 127): remove every
(non-overlapping, left-to-right) occurrence of the substring `/32`. -/
def replaceSlash32 : List Char → List Char
  | '/' :: '3' :: '2' :: rest => replaceSlash32 rest
  | c :: rest => c :: replaceSlash32 rest
  | [] => []

/-- Host expansion inside `producer` (scanner.py lines 127-132): strip
`/32`, parse the remainder as an IPv4 network — re-raising the library's
`ValueError` as `InvalidFormatError` — and render each usable host back
to a string. -/
def expandHosts (host : String) : Except ScanError (List String) :=
  match ip_network? (replaceSlash32 host.data) with
  | none => .error (.invalidFormat "ip address format is incorrect")
  | some (net, pfx) => .ok ((hostsOfNetwork net pfx).map natToDotted)

/-- The task-construction loop of `producer` (scanner.py lines 134-135):
one task per element of `itertools.product(hosts, ports)`, each paired
with the configured timeout, enqueued in product order before any
consumer starts (the orchestrator `await`s `producer` to completion at
line 179 before creating consumer tasks at lines 182-183). -/
def producerTasks {α : Type} (hosts : List String) (ports : List Int)
    (timeout : α) : List (String × Int × α) :=
  (hosts ×ˢ ports).map (fun x => (x.1, x.2, timeout))

/-- C7: `expand("10.0.0.5/32")` yields exactly `["10.0.0.5"]`; a `/32`
network has its single address as only host; and for every prefix of
length at most 24, the network address and the broadcast address are
both excluded from the usable hosts. -/
theorem C7_usable_hosts :
    expandHosts "10.0.0.5/32" = .ok ["10.0.0.5"] ∧
    (∀ net : Nat, hostsOfNetwork net 32 = [net]) ∧
    (∀ net pfx : Nat, pfx ≤ 24 →
        net ∉ hostsOfNetwork net pfx ∧
        net + 2 ^ (32 - pfx) - 1 ∉ hostsOfNetwork net pfx) := by
  refine ⟨by decide, fun net => rfl, ?_⟩
  intro net pfx hp
  have hpow : (256 : Nat) ≤ 2 ^ (32 - pfx) := by
    calc (256 : Nat) = 2 ^ 8 := by norm_num
    _ ≤ 2 ^ (32 - pfx) := Nat.pow_le_pow_right (by norm_num) (by omega)
  have h32 : pfx ≠ 32 := by omega
  have h31 : pfx ≠ 31 := by omega
  unfold hostsOfNetwork
  rw [if_neg h32, if_neg h31]
  constructor
  · intro hmem
    rcases List.mem_map.mp hmem with ⟨i, hi, heq⟩
    omega
  · intro hmem
    rcases List.mem_map.mp hmem with ⟨i, hi, heq⟩
    rw [List.mem_range] at hi
    omega

/-- C7 witness: the network-and-broadcast exclusion instantiated at the
block `10.0.0.0/24`. -/
theorem C7_usable_hosts_witness :
    (167772160 : Nat) ∉ hostsOfNetwork 167772160 24 ∧
    (167772160 + 2 ^ (32 - 24) - 1 : Nat) ∉ hostsOfNetwork 167772160 24 :=
  C7_usable_hosts.2.2 167772160 24 (by decide)

/-- Facts about decimal digit characters `'0'`-`'9'`, by evaluation. -/
theorem digitChar_facts :
    ∀ d < 10, (digitChar d).toNat - 48 = d ∧ digitChar d ≠ '.' := by
  decide

/-- On sufficient fuel, the fuel-driven printer agrees with the
mathematical digit expansion (most significant digit first). -/
theorem natToCharsAux_eq (fuel : Nat) :
    ∀ n ≤ fuel, natToCharsAux fuel n = (Nat.digits 10 n).reverse.map digitChar := by
  induction fuel with
  | zero =>
    intro n hn
    have : n = 0 := by omega
    subst this
    simp [natToCharsAux]
  | succ fuel ih =>
    intro n hn
    cases n with
    | zero => simp [natToCharsAux]
    | succ m =>
      rw [show natToCharsAux (fuel + 1) (m + 1)
            = natToCharsAux fuel ((m + 1) / 10) ++ [digitChar ((m + 1) % 10)] from rfl]
      rw [ih ((m + 1) / 10) (by omega)]
      rw [Nat.digits_def' (by norm_num : (1 : Nat) < 10) (Nat.succ_pos m)]
      simp

/-- Every character the decimal printer emits is a digit character, in
particular never `'.'`. -/
theorem natToChars_ne_dot (n : Nat) : ∀ c ∈ natToChars n, c ≠ '.' := by
  intro c hc
  unfold natToChars at hc
  split_ifs at hc with h0
  · simp at hc
    subst hc
    decide
  · rw [natToCharsAux_eq n n le_rfl] at hc
    rcases List.mem_map.mp hc with ⟨d, hd, rfl⟩
    rw [List.mem_reverse] at hd
    exact (digitChar_facts d (Nat.digits_lt_base (by norm_num) hd)).2

/-- Folding digit characters back through `digitsVal` recovers the foldl
over the digits themselves. -/
theorem digitsVal_map_digitChar (L : List Nat) (h : ∀ d ∈ L, d < 10) :
    ∀ a : Nat,
      List.foldl (fun acc c => acc * 10 + (c.toNat - 48)) a (L.map digitChar)
        = List.foldl (fun acc d => acc * 10 + d) a L := by
  induction L with
  | nil => intro a; rfl
  | cons d L ih =>
    intro a
    have hd : (digitChar d).toNat - 48 = d :=
      (digitChar_facts d (h d (List.mem_cons_self ..))).1
    simp only [List.map_cons, List.foldl_cons, hd]
    exact ih (fun x hx => h x (List.mem_cons_of_mem _ hx)) _

/-- The big-endian foldl of a digit list equals `Nat.ofDigits` of its
little-endian reversal, shifted by the accumulator. -/
theorem foldl_eq_ofDigits_reverse (L : List Nat) :
    ∀ a : Nat, List.foldl (fun acc d => acc * 10 + d) a L
      = a * 10 ^ L.length + Nat.ofDigits 10 L.reverse := by
  induction L with
  | nil => intro a; simp [Nat.ofDigits]
  | cons d L ih =>
    intro a
    simp only [List.foldl_cons, List.reverse_cons, List.length_cons]
    rw [ih (a * 10 + d), Nat.ofDigits_append]
    simp only [Nat.ofDigits_singleton, List.length_reverse]
    ring

/-- Round trip: `digitsVal` undoes the decimal printer. -/
theorem digitsVal_natToChars (n : Nat) : digitsVal (natToChars n) = n := by
  by_cases h0 : n = 0
  · subst h0; decide
  · unfold natToChars
    rw [if_neg h0, natToCharsAux_eq n n le_rfl]
    unfold digitsVal
    rw [digitsVal_map_digitChar _
      (fun d hd => Nat.digits_lt_base (by norm_num) (List.mem_reverse.mp hd)) 0]
    rw [foldl_eq_ofDigits_reverse]
    simp [Nat.ofDigits_digits]

/-- `pySplit` on a separator-free list yields that single piece. -/
theorem pySplit_no_sep (c : Char) (xs : List Char) (h : ∀ x ∈ xs, x ≠ c) :
    pySplit c xs = [xs] := by
  induction xs with
  | nil => rfl
  | cons a xs ih =>
    have ha : ¬ (a = c) := h a (List.mem_cons_self ..)
    rw [show pySplit c (a :: xs)
          = if a = c then [] :: pySplit c xs
            else match pySplit c xs with
              | [] => [[a]]
              | t :: ts => (a :: t) :: ts from rfl]
    rw [if_neg ha, ih (fun x hx => h x (List.mem_cons_of_mem _ hx))]

/-- `pySplit` peels off a leading separator-free piece. -/
theorem pySplit_append (c : Char) (ys : List Char) :
    ∀ xs : List Char, (∀ x ∈ xs, x ≠ c) →
      pySplit c (xs ++ c :: ys) = xs :: pySplit c ys := by
  intro xs
  induction xs with
  | nil => intro _; simp [pySplit]
  | cons a xs ih =>
    intro h
    have ha : ¬ (a = c) := h a (List.mem_cons_self ..)
    rw [List.cons_append]
    rw [show pySplit c (a :: (xs ++ c :: ys))
          = if a = c then [] :: pySplit c (xs ++ c :: ys)
            else match pySplit c (xs ++ c :: ys) with
              | [] => [[a]]
              | t :: ts => (a :: t) :: ts from rfl]
    rw [if_neg ha, ih (fun x hx => h x (List.mem_cons_of_mem _ hx))]

/-- The character list of a dotted-quad rendering, as four printed octets
joined by dots. -/
theorem natToDotted_data (k : Nat) :
    (natToDotted k).data
      = natToChars (k / 2 ^ 24 % 256) ++ '.' ::
          (natToChars (k / 2 ^ 16 % 256) ++ '.' ::
            (natToChars (k / 2 ^ 8 % 256) ++ '.' :: natToChars (k % 256))) := rfl

/-- Splitting a dotted-quad rendering on `'.'` recovers the four printed
octets. -/
theorem pySplit_natToDotted (k : Nat) :
    pySplit '.' (natToDotted k).data
      = [natToChars (k / 2 ^ 24 % 256), natToChars (k / 2 ^ 16 % 256),
          natToChars (k / 2 ^ 8 % 256), natToChars (k % 256)] := by
  rw [natToDotted_data]
  rw [pySplit_append _ _ _ (natToChars_ne_dot _)]
  rw [pySplit_append _ _ _ (natToChars_ne_dot _)]
  rw [pySplit_append _ _ _ (natToChars_ne_dot _)]
  rw [pySplit_no_sep _ _ (natToChars_ne_dot _)]

/-- Dotted-quad rendering is injective on 32-bit values. -/
theorem natToDotted_inj {n m : Nat} (hn : n < 2 ^ 32) (hm : m < 2 ^ 32)
    (h : natToDotted n = natToDotted m) : n = m := by
  have hd : pySplit '.' (natToDotted n).data = pySplit '.' (natToDotted m).data := by
    rw [h]
  rw [pySplit_natToDotted, pySplit_natToDotted] at hd
  simp only [List.cons.injEq, and_true] at hd
  obtain ⟨h1, h2, h3, h4⟩ := hd
  have e1 := congrArg digitsVal h1
  have e2 := congrArg digitsVal h2
  have e3 := congrArg digitsVal h3
  have e4 := congrArg digitsVal h4
  rw [digitsVal_natToChars, digitsVal_natToChars] at e1 e2 e3 e4
  have p24 : (2 : Nat) ^ 24 = 16777216 := by norm_num
  have p16 : (2 : Nat) ^ 16 = 65536 := by norm_num
  have p8 : (2 : Nat) ^ 8 = 256 := by norm_num
  have p32 : (2 : Nat) ^ 32 = 4294967296 := by norm_num
  rw [p24] at e1
  rw [p16] at e2
  rw [p8] at e3
  rw [p32] at hn hm
  omega

/-- The usable-host list of a network never repeats an address. -/
theorem hostsOfNetwork_nodup (net pfx : Nat) : (hostsOfNetwork net pfx).Nodup := by
  unfold hostsOfNetwork
  split_ifs with h1 h2
  · simp
  · simp
  · exact ((List.nodup_range _).map (fun a b hab => by omega))

/-- An aligned network base plus any offset below the block size stays
below `2 ^ 32`. -/
theorem net_add_lt (net pfx : Nat) (hpfx : pfx ≤ 32)
    (hmod : net % 2 ^ (32 - pfx) = 0) (hlt : net < 2 ^ 32)
    (off : Nat) (hoff : off < 2 ^ (32 - pfx)) : net + off < 2 ^ 32 := by
  obtain ⟨q, hq⟩ := Nat.dvd_of_mod_eq_zero hmod
  have hKpos : 0 < 2 ^ (32 - pfx) := Nat.pos_pow_of_pos _ (by norm_num)
  have hKM : 2 ^ (32 - pfx) * 2 ^ pfx = 2 ^ 32 := by
    rw [← pow_add]
    congr 1
    omega
  have hqlt : q < 2 ^ pfx := by
    by_contra hge
    push_neg at hge
    have hle : 2 ^ 32 ≤ net := by
      calc 2 ^ 32 = 2 ^ (32 - pfx) * 2 ^ pfx := hKM.symm
        _ ≤ 2 ^ (32 - pfx) * q := Nat.mul_le_mul_left _ hge
        _ = net := hq.symm
    omega
  have hsum : net + 2 ^ (32 - pfx) ≤ 2 ^ 32 := by
    calc net + 2 ^ (32 - pfx) = 2 ^ (32 - pfx) * (q + 1) := by rw [hq]; ring
      _ ≤ 2 ^ (32 - pfx) * 2 ^ pfx := Nat.mul_le_mul_left _ (by omega)
      _ = 2 ^ 32 := hKM
  omega

/-- Every usable host of a valid network is a 32-bit value. -/
theorem hostsOfNetwork_mem_lt (net pfx : Nat) (hpfx : pfx ≤ 32)
    (hmod : net % 2 ^ (32 - pfx) = 0) (hlt : net < 2 ^ 32) :
    ∀ x ∈ hostsOfNetwork net pfx, x < 2 ^ 32 := by
  intro x hx
  unfold hostsOfNetwork at hx
  split_ifs at hx with h1 h2
  · simp at hx
    omega
  · have hK : 2 ^ (32 - pfx) = 2 := by
      rw [show 32 - pfx = 1 from by omega]
      norm_num
    simp at hx
    rcases hx with rfl | rfl
    · omega
    · have := net_add_lt net pfx hpfx hmod hlt 1 (by omega)
      omega
  · rcases List.mem_map.mp hx with ⟨i, hi, rfl⟩
    rw [List.mem_range] at hi
    have := net_add_lt net pfx hpfx hmod hlt (1 + i) (by omega)
    omega

/-- A parsed octet is below 256. -/
theorem parseOctet_lt {s : List Char} {v : Nat}
    (h : parseOctet? s = some v) : v < 256 := by
  unfold parseOctet? at h
  split_ifs at h with h1 h2
  cases h
  exact h2

/-- A parsed prefix length is at most 32. -/
theorem parsePfxLen_le {s : List Char} {v : Nat}
    (h : parsePfxLen? s = some v) : v ≤ 32 := by
  unfold parsePfxLen? at h
  split_ifs at h with h1 h2
  cases h
  exact h2

/-- A parsed IPv4 address is a 32-bit value. -/
theorem parseIPv4_lt {s : List Char} {n : Nat}
    (h : parseIPv4? s = some n) : n < 2 ^ 32 := by
  unfold parseIPv4? at h
  rcases hsp : pySplit '.' s with _ | ⟨a, _ | ⟨b, _ | ⟨c, _ | ⟨d, _ | _⟩⟩⟩⟩ <;>
    rw [hsp] at h
  · cases h
  · cases h
  · cases h
  · cases h
  · dsimp only at h
    rcases ha : parseOctet? a with _ | x <;> rw [ha] at h
    · cases h
    rcases hb : parseOctet? b with _ | y <;> rw [hb] at h
    · cases h
    rcases hc : parseOctet? c with _ | z <;> rw [hc] at h
    · cases h
    rcases hd : parseOctet? d with _ | w <;> rw [hd] at h
    · cases h
    cases h
    have hx := parseOctet_lt ha
    have hy := parseOctet_lt hb
    have hz := parseOctet_lt hc
    have hw := parseOctet_lt hd
    have p32 : (2 : Nat) ^ 32 = 4294967296 := by norm_num
    omega
  · cases h

/-- A network the `ipaddress` model accepts has a 32-bit base, a prefix
of at most 32, and zero host bits. -/
theorem ip_network_facts {s : List Char} {net pfx : Nat}
    (h : ip_network? s = some (net, pfx)) :
    net < 2 ^ 32 ∧ pfx ≤ 32 ∧ net % 2 ^ (32 - pfx) = 0 := by
  unfold ip_network? at h
  rcases hsp : pySplit '/' s with _ | ⟨a, _ | ⟨b, _ | _⟩⟩ <;>
    rw [hsp] at h
  · cases h
  · dsimp only at h
    rcases ha : parseIPv4? a with _ | n' <;> rw [ha] at h
    · cases h
    · cases h
      exact ⟨parseIPv4_lt ha, by norm_num, by omega⟩
  · dsimp only at h
    rcases ha : parseIPv4? a with _ | n' <;> rw [ha] at h
    · cases h
    rcases hb : parsePfxLen? b with _ | p' <;> rw [hb] at h
    · cases h
    dsimp only at h
    split_ifs at h with hbits
    cases h
    exact ⟨parseIPv4_lt ha, parsePfxLen_le hb, hbits⟩
  · cases h

/-- Host expansion never returns a duplicated address string. -/
theorem expandHosts_ok_nodup {host : String} {hosts : List String}
    (h : expandHosts host = .ok hosts) : hosts.Nodup := by
  unfold expandHosts at h
  rcases hnet : ip_network? (replaceSlash32 host.data) with _ | ⟨net, pfx⟩ <;>
    rw [hnet] at h
  · cases h
  obtain ⟨hlt, hpfx, hmod⟩ := ip_network_facts hnet
  cases h
  exact (hostsOfNetwork_nodup net pfx).map_on
    (fun x hx y hy hxy =>
      natToDotted_inj (hostsOfNetwork_mem_lt net pfx hpfx hmod hlt x hx)
        (hostsOfNetwork_mem_lt net pfx hpfx hmod hlt y hy) hxy)

/-- C8: the tasks the producer enqueues (all before any worker starts, as
the orchestrator awaits `producer` to completion first) project exactly
onto the cartesian product of the expanded addresses and the parsed
ports, each task carries the configured timeout, and — the address list
from `expand` and the port list from `parse_ports` being duplicate-free —
the task set has no duplicate (address, port) pair. -/
theorem C8_task_product :
    (∀ (α : Type) (hosts : List String) (ports : List Int) (timeout : α),
        (producerTasks hosts ports timeout).map (fun t => (t.1, t.2.1))
            = hosts ×ˢ ports ∧
        ∀ t ∈ producerTasks hosts ports timeout, t.2.2 = timeout) ∧
    (∀ (α : Type) (hosts : List String) (ports : List Int) (timeout : α),
        hosts.Nodup → ports.Nodup →
        ((producerTasks hosts ports timeout).map (fun t => (t.1, t.2.1))).Nodup) ∧
    (∀ (host : String) (hosts : List String),
        expandHosts host = .ok hosts → hosts.Nodup) ∧
    (∀ (s : String) (ports : List Int),
        parse_ports s = .ok ports → ports.Nodup) := by
  have hproj : ∀ (α : Type) (hosts : List String) (ports : List Int) (timeout : α),
      (producerTasks hosts ports timeout).map (fun t => (t.1, t.2.1))
        = hosts ×ˢ ports := by
    intro α hosts ports timeout
    unfold producerTasks
    rw [List.map_map]
    have hid : ((fun t : String × Int × α => (t.1, t.2.1)) ∘
        fun x : String × Int => (x.1, x.2, timeout)) = id := by
      funext x
      rfl
    rw [hid, List.map_id]
  refine ⟨fun α hosts ports timeout => ⟨hproj α hosts ports timeout, ?_⟩,
    fun α hosts ports timeout hh hp => ?_,
    fun host hosts h => expandHosts_ok_nodup h,
    fun s ports h => parse_ports_ok_nodup h⟩
  · intro t ht
    rcases List.mem_map.mp ht with ⟨x, hx, rfl⟩
    rfl
  · rw [hproj]
    exact hh.product hp

/-- C8 witness: the task set for `10.0.0.5/32` with ports `80, 443` at
timeout `2`. -/
theorem C8_task_product_witness :
    ((producerTasks ["10.0.0.5"] [80, 443] (2 : Nat)).map
        (fun t => (t.1, t.2.1))).Nodup ∧
    (["10.0.0.5"] : List String).Nodup ∧ ([80, 443] : List Int).Nodup :=
  ⟨C8_task_product.2.1 Nat ["10.0.0.5"] [80, 443] 2 (by decide) (by decide),
   C8_task_product.2.2.1 "10.0.0.5/32" ["10.0.0.5"] (by decide),
   C8_task_product.2.2.2 "80,443" [80, 443] (by decide)⟩

end Scanner
